import Mathlib

/-!
Verification of the atlas-graph core: graph construction (GraphBuilder),
snapshot comparison (GraphDiffer), cross-project linking (CrossProjectLinker)
and refactor simulation (DiffSimulator), shallowly embedded from the Python
sources in src/atlas_graph/.

Python dicts are modelled as association lists with Python's insertion-order
semantics (first occurrence fixes the position of a key, a later assignment
to the same key updates the value in place).  Python sets are modelled by
lists used only through membership and deduplication.  The data-model classes
(Node, Edge, CICDGraph, MultiProjectGraph, ...) come from the external
atlas_sdk package, which is not part of this repository; they are modelled
from the spec's data-model section (plain record types, add_node / add_edge
append, get_node is lookup by id).
-/

set_option maxRecDepth 8000
set_option linter.unusedSectionVars false

namespace AtlasGraph

/-! ## Python dict model -/

section Dict

variable {K V : Type} [DecidableEq K]

/-- Dict lookup: the value stored at key `k`, scanning entries in order. -/
def dlookup (k : K) : List (K × V) → Option V
  | [] => none
  | kv :: rest => if kv.1 = k then some kv.2 else dlookup k rest

/-- Python `k in d`. -/
def dmem (k : K) (d : List (K × V)) : Bool := (dlookup k d).isSome

/-- Python `d[k] = v`: update the value in place when the key is present,
append a new entry otherwise (insertion-order semantics). -/
def dinsert (k : K) (v : V) : List (K × V) → List (K × V)
  | [] => [(k, v)]
  | kv :: rest => if kv.1 = k then (k, v) :: rest else kv :: dinsert k v rest

/-- Python `defaultdict(list)`'s `d[k].append(v)`. -/
def dappend (k : K) (v : V) : List (K × List V) → List (K × List V)
  | [] => [(k, [v])]
  | kv :: rest => if kv.1 = k then (kv.1, kv.2 ++ [v]) :: rest else kv :: dappend k v rest

/-- A dict comprehension `{key(x): val(x) for x in l}` as Python builds it:
left-to-right insertion. -/
def dictOfList (l : List (K × V)) : List (K × V) :=
  l.foldl (fun d kv => dinsert kv.1 kv.2 d) []

/-- The keys of a dict, in order. -/
def dkeys (d : List (K × V)) : List K := d.map Prod.fst

@[simp] theorem dlookup_nil (k : K) : dlookup (V := V) k [] = none := rfl

@[simp] theorem dlookup_cons (k : K) (kv : K × V) (d : List (K × V)) :
    dlookup k (kv :: d) = if kv.1 = k then some kv.2 else dlookup k d := rfl

@[simp] theorem dkeys_nil : dkeys ([] : List (K × V)) = [] := rfl

@[simp] theorem dkeys_cons (kv : K × V) (d : List (K × V)) :
    dkeys (kv :: d) = kv.1 :: dkeys d := rfl

theorem dmem_iff_mem_dkeys (k : K) (d : List (K × V)) :
    dmem k d = true ↔ k ∈ dkeys d := by
  induction d with
  | nil => simp [dmem]
  | cons kv rest ih =>
    by_cases h : kv.1 = k
    · simp [dmem, dlookup, h]
    · have h2 : k ≠ kv.1 := fun he => h he.symm
      simp only [dmem, dlookup_cons, h, if_false, dkeys_cons, List.mem_cons]
      constructor
      · intro hm; exact Or.inr (ih.mp hm)
      · intro hm
        rcases hm with h1 | h1
        · exact absurd h1 h2
        · exact ih.mpr h1

theorem dlookup_of_mem_of_nodup {d : List (K × V)} (hnd : (dkeys d).Nodup)
    {kv : K × V} (hm : kv ∈ d) : dlookup kv.1 d = some kv.2 := by
  induction d with
  | nil => cases hm
  | cons hd rest ih =>
    rcases List.mem_cons.mp hm with h | h
    · subst h; simp [dlookup]
    · have hne : hd.1 ≠ kv.1 := by
        intro he
        have : kv.1 ∈ dkeys rest := List.mem_map.mpr ⟨kv, h, rfl⟩
        rw [← he] at this
        exact (List.nodup_cons.mp hnd).1 this
      simp only [dlookup, hne, if_false]
      exact ih (List.nodup_cons.mp hnd).2 h

theorem mem_dinsert {k : K} {v : V} {d : List (K × V)} {x : K × V}
    (hx : x ∈ dinsert k v d) : x = (k, v) ∨ x ∈ d := by
  induction d with
  | nil => simpa [dinsert] using hx
  | cons kv rest ih =>
    by_cases h : kv.1 = k
    · simp only [dinsert, h, if_true, List.mem_cons] at hx
      rcases hx with h1 | h1
      · exact Or.inl h1
      · exact Or.inr (List.mem_cons_of_mem _ h1)
    · simp only [dinsert, h, if_false, List.mem_cons] at hx
      rcases hx with h1 | h1
      · exact Or.inr (List.mem_cons.mpr (Or.inl h1))
      · rcases ih h1 with h2 | h2
        · exact Or.inl h2
        · exact Or.inr (List.mem_cons_of_mem _ h2)

theorem dkeys_dinsert_of_mem {k : K} (v : V) {d : List (K × V)}
    (h : k ∈ dkeys d) : dkeys (dinsert k v d) = dkeys d := by
  induction d with
  | nil => cases h
  | cons kv rest ih =>
    by_cases hk : kv.1 = k
    · simp [dinsert, hk]
    · have : k ∈ dkeys rest := by
        rcases List.mem_cons.mp h with h1 | h1
        · exact absurd h1.symm hk
        · exact h1
      simp [dinsert, hk, ih this]

theorem dkeys_dinsert_of_not_mem {k : K} (v : V) {d : List (K × V)}
    (h : k ∉ dkeys d) : dkeys (dinsert k v d) = dkeys d ++ [k] := by
  induction d with
  | nil => simp [dinsert]
  | cons kv rest ih =>
    have hk : kv.1 ≠ k := fun he => h (by simp [he])
    have : k ∉ dkeys rest := fun hm => h (by simp [hm])
    simp [dinsert, hk, ih this]

theorem dinsert_of_not_mem {k : K} (v : V) {d : List (K × V)}
    (h : k ∉ dkeys d) : dinsert k v d = d ++ [(k, v)] := by
  induction d with
  | nil => simp [dinsert]
  | cons kv rest ih =>
    have hk : kv.1 ≠ k := fun he => h (by simp [he])
    have : k ∉ dkeys rest := fun hm => h (by simp [hm])
    simp [dinsert, hk, ih this]

theorem nodup_dkeys_dinsert {k : K} (v : V) {d : List (K × V)}
    (h : (dkeys d).Nodup) : (dkeys (dinsert k v d)).Nodup := by
  by_cases hm : k ∈ dkeys d
  · rw [dkeys_dinsert_of_mem v hm]; exact h
  · rw [dkeys_dinsert_of_not_mem v hm]
    simpa [List.nodup_append] using ⟨h, hm⟩

theorem nodup_dkeys_dictOfList (l : List (K × V)) :
    (dkeys (dictOfList l)).Nodup := by
  suffices h : ∀ (acc : List (K × V)), (dkeys acc).Nodup →
      (dkeys (l.foldl (fun d kv => dinsert kv.1 kv.2 d) acc)).Nodup by
    exact h [] List.nodup_nil
  induction l with
  | nil => intro acc hacc; simpa using hacc
  | cons kv rest ih =>
    intro acc hacc
    exact ih _ (nodup_dkeys_dinsert kv.2 hacc)

theorem mem_foldl_dinsert {x : K × V} (l : List (K × V)) :
    ∀ acc : List (K × V),
      x ∈ l.foldl (fun d kv => dinsert kv.1 kv.2 d) acc → x ∈ acc ∨ x ∈ l := by
  induction l with
  | nil => intro acc h; exact Or.inl h
  | cons kv rest ih =>
    intro acc h
    rw [List.foldl_cons] at h
    rcases ih _ h with h1 | h1
    · rcases mem_dinsert h1 with h2 | h2
      · exact Or.inr (by simp [h2])
      · exact Or.inl h2
    · exact Or.inr (List.mem_cons_of_mem _ h1)

theorem mem_dictOfList {l : List (K × V)} {x : K × V}
    (hx : x ∈ dictOfList l) : x ∈ l := by
  rcases mem_foldl_dinsert l [] hx with h1 | h1
  · cases h1
  · exact h1

theorem foldl_dinsert_of_nodup (l : List (K × V)) :
    ∀ acc : List (K × V), (dkeys (acc ++ l)).Nodup →
      l.foldl (fun d kv => dinsert kv.1 kv.2 d) acc = acc ++ l := by
  induction l with
  | nil => intro acc _; simp
  | cons kv rest ih =>
    intro acc hacc
    have hsplit : (dkeys acc ++ dkeys (kv :: rest)).Nodup := by
      simpa [dkeys] using hacc
    have hk : kv.1 ∉ dkeys acc := by
      intro hm
      exact (List.disjoint_of_nodup_append hsplit) hm (by simp)
    have step : dinsert kv.1 kv.2 acc = acc ++ [kv] := dinsert_of_not_mem _ hk
    have hrest : (dkeys ((acc ++ [kv]) ++ rest)).Nodup := by
      simpa [dkeys] using hacc
    rw [List.foldl_cons, step, ih _ hrest]
    simp

theorem dictOfList_of_nodup_dkeys {l : List (K × V)}
    (h : (dkeys l).Nodup) : dictOfList l = l := by
  simpa using foldl_dinsert_of_nodup l [] (by simpa using h)

end Dict

/-! ## Python string primitives

The sources use `str.lower()`, `str.strip()`, `str.startswith(p)` and
character slicing.  Python strings index by characters, so these are
modelled over the character list of a Lean `String` (structural recursion,
so that concrete inputs evaluate inside the kernel). -/

/-- Python `s.lower()` (ASCII case mapping). -/
def pyLower (s : String) : String := ⟨s.data.map Char.toLower⟩

/-- Python `s.strip()`: remove leading and trailing whitespace. -/
def pyStrip (s : String) : String :=
  ⟨((s.data.dropWhile Char.isWhitespace).reverse.dropWhile Char.isWhitespace).reverse⟩

/-- Python `s.startswith(p)`. -/
def pyStartsWith (s p : String) : Bool :=
  decide (s.data.take p.data.length = p.data)

/-- Python character count `len(s)`. -/
def pyLen (s : String) : Nat := s.data.length

/-- Python slice `s[n:]`. -/
def pySliceFrom (s : String) (n : Nat) : String := ⟨s.data.drop n⟩

/-- Python slice `s[:n]`. -/
def pySliceTo (s : String) (n : Nat) : String := ⟨s.data.take n⟩

/-! ## Data model

Modelled from the spec: the Node / Edge / CICDGraph entities live in the
external atlas_sdk package (not part of this repository).  Per the spec's
data-model section: a Node has an opaque id, a `node_type` category, a free
`name`, and an open `metadata` mapping; an Edge has an `edge_type` and two
endpoint node ids; a Graph holds ordered node and edge collections with
append-style `add_node` / `add_edge` and lookup-by-id `get_node`.  Enum
values (node types, edge types) are modelled as their string forms, so the
source's `str(node.node_type)` is the identity.  Generated uuid ids are
opaque: id fields are plain strings. -/

/-- A metadata value: the open, arbitrarily-valued bag of the spec,
restricted to the variants the core actually stores and compares. -/
inductive MetaVal where
  | str (s : String)
  | num (n : Int)
  | boolean (b : Bool)
deriving DecidableEq, Repr

/-- A node's metadata mapping, as a Python dict (association list with
insertion-order semantics). -/
abbrev Metadata := List (String × MetaVal)

/-- Modelled from the spec: atlas_sdk's Node. -/
structure Node where
  id : String
  node_type : String
  name : String
  metadata : Metadata := []
deriving DecidableEq, Repr

/-- Modelled from the spec: atlas_sdk's Edge. -/
structure Edge where
  id : String := ""
  edge_type : String
  source_node_id : String
  target_node_id : String
deriving DecidableEq, Repr

/-- Modelled from the spec: atlas_sdk's CICDGraph (ordered nodes and edges,
optional platform tag, opaque id). -/
structure CICDGraph where
  id : String := ""
  name : String := ""
  platform : Option String := none
  nodes : List Node := []
  edges : List Edge := []
deriving DecidableEq, Repr

/-- Modelled from the spec: `add_node` appends to the ordered collection. -/
def CICDGraph.add_node (g : CICDGraph) (n : Node) : CICDGraph :=
  { g with nodes := g.nodes ++ [n] }

/-- Modelled from the spec: `add_edge` appends to the ordered collection. -/
def CICDGraph.add_edge (g : CICDGraph) (e : Edge) : CICDGraph :=
  { g with edges := g.edges ++ [e] }

/-- Modelled from the spec: `get_node` is lookup by node id. -/
def CICDGraph.get_node (g : CICDGraph) (node_id : String) : Option Node :=
  g.nodes.find? (fun n => decide (n.id = node_id))

/-! ## GraphDiffer (src/atlas_graph/differ.py)

Python's `b.metadata != a.metadata` compares dicts extensionally; `metaEqb`
is that extensional equality on the association-list representation (it
coincides with dict equality whenever each list has no duplicate keys,
which is the case for every list representing an actual Python dict). -/

/-- Extensional (deep) equality of two metadata dicts: every entry of each
is found, with the same value, in the other. -/
def metaEqb (d1 d2 : Metadata) : Bool :=
  d1.all (fun kv => decide (dlookup kv.1 d2 = some kv.2)) &&
  d2.all (fun kv => decide (dlookup kv.1 d1 = some kv.2))

theorem metaEqb_self {d : Metadata} (h : (dkeys d).Nodup) : metaEqb d d = true := by
  simp only [metaEqb, Bool.and_self, List.all_eq_true, decide_eq_true_eq]
  intro kv hkv
  exact dlookup_of_mem_of_nodup h hkv

/-- `NodeChange` (differ.py): a change to a single node. -/
structure NodeChange where
  change_type : String
  node_name : String
  node_type : String
  details : String := ""
deriving DecidableEq, Repr

/-- `EdgeChange` (differ.py): a change to a single edge; `source` / `target`
carry the first 8 characters of the endpoint ids. -/
structure EdgeChange where
  change_type : String
  edge_type : String
  source : String
  target : String
deriving DecidableEq, Repr

/-- `GraphDiff` (differ.py).  The uuid4-generated `id` is opaque and
modelled as a default string. -/
structure GraphDiff where
  id : String := ""
  before_graph_id : String
  after_graph_id : String
  before_name : String := ""
  after_name : String := ""
  node_changes : List NodeChange := []
  edge_changes : List EdgeChange := []
deriving DecidableEq, Repr

/-- `GraphDiff.total_changes`. -/
def GraphDiff.total_changes (d : GraphDiff) : Nat :=
  d.node_changes.length + d.edge_changes.length

/-- `GraphDiff.added_nodes`. -/
def GraphDiff.added_nodes (d : GraphDiff) : Nat :=
  d.node_changes.countP (fun c => decide (c.change_type = "added"))

/-- `GraphDiff.removed_nodes`. -/
def GraphDiff.removed_nodes (d : GraphDiff) : Nat :=
  d.node_changes.countP (fun c => decide (c.change_type = "removed"))

/-- `GraphDiff.has_changes`. -/
def GraphDiff.has_changes (d : GraphDiff) : Bool :=
  decide (0 < d.total_changes)

/-- The `(node_type, name)` key both the differ and the builder index by. -/
def nodeKey (n : Node) : String × String := (n.node_type, n.name)

/-- An edge's comparison triple `(edge_type, source_node_id, target_node_id)`
(differ.py edge comparison). -/
def edgeTriple (e : Edge) : String × String × String :=
  (e.edge_type, e.source_node_id, e.target_node_id)

/-- `GraphDiffer.diff` (differ.py lines 79-147).  The two node dicts are the
Python comprehensions indexed by `(node_type, name)`; the three passes append
added, then removed, then modified node changes in dict iteration order.
Edge comparison forms the two sets of edge triples and takes the two
differences; Python iterates a set difference in unspecified order, modelled
here as the deduplicated first-list order. -/
def GraphDiffer.diff (before after : CICDGraph) : GraphDiff :=
  let before_nodes := dictOfList (before.nodes.map (fun n => (nodeKey n, n)))
  let after_nodes := dictOfList (after.nodes.map (fun n => (nodeKey n, n)))
  let added := after_nodes.filterMap (fun kv =>
    if dmem kv.1 before_nodes then none
    else some { change_type := "added", node_name := kv.2.name,
                node_type := kv.2.node_type })
  let removed := before_nodes.filterMap (fun kv =>
    if dmem kv.1 after_nodes then none
    else some { change_type := "removed", node_name := kv.2.name,
                node_type := kv.2.node_type })
  let modified := before_nodes.filterMap (fun kv =>
    match dlookup kv.1 after_nodes with
    | none => none
    | some a =>
      if metaEqb kv.2.metadata a.metadata then none
      else some { change_type := "modified", node_name := a.name,
                  node_type := a.node_type, details := "metadata changed" })
  let before_edges := (before.edges.map edgeTriple).dedup
  let after_edges := (after.edges.map edgeTriple).dedup
  let added_edges := (after_edges.filter
      (fun t => decide (t ∉ before.edges.map edgeTriple))).map (fun t =>
    { change_type := "added", edge_type := t.1,
      source := pySliceTo t.2.1 8, target := pySliceTo t.2.2 8 })
  let removed_edges := (before_edges.filter
      (fun t => decide (t ∉ after.edges.map edgeTriple))).map (fun t =>
    { change_type := "removed", edge_type := t.1,
      source := pySliceTo t.2.1 8, target := pySliceTo t.2.2 8 })
  { before_graph_id := before.id, after_graph_id := after.id,
    before_name := before.name, after_name := after.name,
    node_changes := added ++ removed ++ modified,
    edge_changes := added_edges ++ removed_edges }

/-! ### Differ lemmas and spec-side characterizations -/

/-- Does the graph hold a node with this `(node_type, name)` key? -/
def hasNodeKey (g : CICDGraph) (k : String × String) : Bool :=
  g.nodes.any (fun n => decide (nodeKey n = k))

/-- The graph's node with this `(node_type, name)` key. -/
def findNodeByKey (g : CICDGraph) (k : String × String) : Option Node :=
  g.nodes.find? (fun n => decide (nodeKey n = k))

/-- The node-change list as the spec words it: one added change per node of
`after` whose key is absent from `before`, then one removed change per node
of `before` whose key is absent from `after`, then one modified change (with
details "metadata changed") per node of `before` whose key is shared and
whose metadata is not deeply equal to the matching `after` node's. -/
def specNodeChanges (before after : CICDGraph) : List NodeChange :=
  ((after.nodes.filter (fun n => !hasNodeKey before (nodeKey n))).map (fun n =>
    { change_type := "added", node_name := n.name, node_type := n.node_type }))
  ++ ((before.nodes.filter (fun n => !hasNodeKey after (nodeKey n))).map (fun n =>
    { change_type := "removed", node_name := n.name, node_type := n.node_type }))
  ++ (before.nodes.filterMap (fun n =>
    match findNodeByKey after (nodeKey n) with
    | none => none
    | some a =>
      if metaEqb n.metadata a.metadata then none
      else some { change_type := "modified", node_name := a.name,
                  node_type := a.node_type, details := "metadata changed" }))

/-- Within the graph, no two nodes share the `(node_type, name)` key (the
uniqueness invariant the spec's data model imposes at build time). -/
def nodupNodeKeys (g : CICDGraph) : Bool :=
  decide ((g.nodes.map nodeKey).Nodup)

/-- Every node's metadata association list has no duplicate keys, i.e. it
represents an actual Python dict. -/
def nodupMetaKeys (g : CICDGraph) : Bool :=
  g.nodes.all (fun n => decide ((dkeys n.metadata).Nodup))

theorem dmem_map_pair (k : String × String) (ns : List Node) :
    dmem k (ns.map (fun n => (nodeKey n, n))) = ns.any (fun n => decide (nodeKey n = k)) := by
  induction ns with
  | nil => simp [dmem]
  | cons n rest ih =>
    by_cases h : nodeKey n = k
    · simp [dmem, dlookup, h]
    · simp only [List.map_cons, dmem, dlookup_cons, h, if_false, List.any_cons,
        decide_eq_true_eq]
      rw [← dmem, ih]
      simp [h]

theorem dlookup_map_pair (k : String × String) (ns : List Node) :
    dlookup k (ns.map (fun n => (nodeKey n, n)))
      = ns.find? (fun n => decide (nodeKey n = k)) := by
  induction ns with
  | nil => simp
  | cons n rest ih =>
    by_cases h : nodeKey n = k
    · simp [dlookup, h, List.find?]
    · simp only [List.map_cons, dlookup_cons, h, if_false, List.find?]
      simpa [h] using ih

theorem filter_map_eq_filterMap {α β : Type} (p : α → Bool) (q : α → β) (l : List α) :
    (l.filter p).map q = l.filterMap (fun x => if p x then some (q x) else none) := by
  induction l with
  | nil => rfl
  | cons x rest ih =>
    by_cases h : p x
    · simp [List.filter_cons, h, List.filterMap_cons, ih]
    · simp [List.filter_cons, h, List.filterMap_cons, ih]

theorem filterMap_ext {α β : Type} {f g : α → Option β} {l : List α}
    (h : ∀ x ∈ l, f x = g x) : l.filterMap f = l.filterMap g := by
  induction l with
  | nil => rfl
  | cons x rest ih =>
    rw [List.filterMap_cons, List.filterMap_cons, h x (by simp),
      ih (fun y hy => h y (List.mem_cons_of_mem _ hy))]

/-- Claim C1: `diff(g, g)` on the identical graph yields zero node changes
and zero edge changes, hence `total_changes = 0` and `has_changes = false`.
The hypothesis states that every node's metadata association list represents
an actual Python dict (no duplicate keys). -/
theorem diff_self_has_no_changes (g : CICDGraph) (hm : nodupMetaKeys g = true) :
    (GraphDiffer.diff g g).node_changes = [] ∧
    (GraphDiffer.diff g g).edge_changes = [] ∧
    (GraphDiffer.diff g g).total_changes = 0 ∧
    (GraphDiffer.diff g g).has_changes = false := by
  have hmeta : ∀ n ∈ g.nodes, (dkeys n.metadata).Nodup := by
    intro n hn
    have := (List.all_eq_true.mp hm) n hn
    exact of_decide_eq_true this
  have hidx := nodup_dkeys_dictOfList (g.nodes.map (fun n => (nodeKey n, n)))
  have hlook : ∀ kv ∈ dictOfList (g.nodes.map (fun n => (nodeKey n, n))),
      dlookup kv.1 (dictOfList (g.nodes.map (fun n => (nodeKey n, n)))) = some kv.2 :=
    fun kv hkv => dlookup_of_mem_of_nodup hidx hkv
  have hmemg : ∀ kv ∈ dictOfList (g.nodes.map (fun n => (nodeKey n, n))),
      kv.2 ∈ g.nodes := by
    intro kv hkv
    rcases List.mem_map.mp (mem_dictOfList hkv) with ⟨n, hn, he⟩
    rw [← he]
    exact hn
  have hnodes : (GraphDiffer.diff g g).node_changes = [] := by
    show List.filterMap _ _ ++ List.filterMap _ _ ++ List.filterMap _ _ = []
    have h1 : ∀ kv ∈ dictOfList (g.nodes.map (fun n => (nodeKey n, n))),
        dmem kv.1 (dictOfList (g.nodes.map (fun n => (nodeKey n, n)))) = true := by
      intro kv hkv
      simp [dmem, hlook kv hkv]
    rw [List.append_eq_nil, List.append_eq_nil]
    refine ⟨⟨?_, ?_⟩, ?_⟩ <;>
      · rw [List.filterMap_eq_nil_iff]
        intro kv hkv
        first
        | simp [h1 kv hkv]
        | (rw [hlook kv hkv]
           simp [metaEqb_self (hmeta kv.2 (hmemg kv hkv))])
  have hedges : (GraphDiffer.diff g g).edge_changes = [] := by
    show List.map _ (List.filter _ _) ++ List.map _ (List.filter _ _) = []
    have h2 : (g.edges.map edgeTriple).dedup.filter
        (fun t => decide (t ∉ g.edges.map edgeTriple)) = [] := by
      rw [List.filter_eq_nil_iff]
      intro t ht
      simpa using List.dedup_subset _ ht
    rw [h2]
    simp
  refine ⟨hnodes, hedges, ?_, ?_⟩
  · simp [GraphDiff.total_changes, hnodes, hedges]
  · simp [GraphDiff.has_changes, GraphDiff.total_changes, hnodes, hedges]

/-- Witness for C1 at a concrete two-node, one-edge graph. -/
theorem diff_self_has_no_changes_witness :
    (GraphDiffer.diff
        { id := "g1", name := "g",
          nodes := [
            { id := "n1", node_type := "job", name := "a",
              metadata := [("k", MetaVal.str "v")] },
            { id := "n2", node_type := "job", name := "b" }],
          edges := [{ edge_type := "calls", source_node_id := "n1",
                      target_node_id := "n2" }] }
        { id := "g1", name := "g",
          nodes := [
            { id := "n1", node_type := "job", name := "a",
              metadata := [("k", MetaVal.str "v")] },
            { id := "n2", node_type := "job", name := "b" }],
          edges := [{ edge_type := "calls", source_node_id := "n1",
                      target_node_id := "n2" }] }).node_changes = [] ∧
    (GraphDiffer.diff
        { id := "g1", name := "g",
          nodes := [
            { id := "n1", node_type := "job", name := "a",
              metadata := [("k", MetaVal.str "v")] },
            { id := "n2", node_type := "job", name := "b" }],
          edges := [{ edge_type := "calls", source_node_id := "n1",
                      target_node_id := "n2" }] }
        { id := "g1", name := "g",
          nodes := [
            { id := "n1", node_type := "job", name := "a",
              metadata := [("k", MetaVal.str "v")] },
            { id := "n2", node_type := "job", name := "b" }],
          edges := [{ edge_type := "calls", source_node_id := "n1",
                      target_node_id := "n2" }] }).edge_changes = [] ∧
    (GraphDiffer.diff
        { id := "g1", name := "g",
          nodes := [
            { id := "n1", node_type := "job", name := "a",
              metadata := [("k", MetaVal.str "v")] },
            { id := "n2", node_type := "job", name := "b" }],
          edges := [{ edge_type := "calls", source_node_id := "n1",
                      target_node_id := "n2" }] }
        { id := "g1", name := "g",
          nodes := [
            { id := "n1", node_type := "job", name := "a",
              metadata := [("k", MetaVal.str "v")] },
            { id := "n2", node_type := "job", name := "b" }],
          edges := [{ edge_type := "calls", source_node_id := "n1",
                      target_node_id := "n2" }] }).total_changes = 0 ∧
    (GraphDiffer.diff
        { id := "g1", name := "g",
          nodes := [
            { id := "n1", node_type := "job", name := "a",
              metadata := [("k", MetaVal.str "v")] },
            { id := "n2", node_type := "job", name := "b" }],
          edges := [{ edge_type := "calls", source_node_id := "n1",
                      target_node_id := "n2" }] }
        { id := "g1", name := "g",
          nodes := [
            { id := "n1", node_type := "job", name := "a",
              metadata := [("k", MetaVal.str "v")] },
            { id := "n2", node_type := "job", name := "b" }],
          edges := [{ edge_type := "calls", source_node_id := "n1",
                      target_node_id := "n2" }] }).has_changes = false :=
  diff_self_has_no_changes
    { id := "g1", name := "g",
      nodes := [
        { id := "n1", node_type := "job", name := "a",
          metadata := [("k", MetaVal.str "v")] },
        { id := "n2", node_type := "job", name := "b" }],
      edges := [{ edge_type := "calls", source_node_id := "n1",
                  target_node_id := "n2" }] }
    (by decide)

/-- Claim C2: the differ indexes nodes by `(node_type, name)` and emits one
added change per key only in `after`, one removed change per key only in
`before`, and one modified change (details "metadata changed") per shared key
with metadata not deeply equal — added first, then removed, then modified,
in discovery order.  The hypotheses are the spec's build-time invariant that
no two nodes of a graph share the key (which also makes "the node with key k"
well defined). -/
theorem diff_node_change_policy (b a : CICDGraph)
    (hb : nodupNodeKeys b = true) (ha : nodupNodeKeys a = true) :
    (GraphDiffer.diff b a).node_changes = specNodeChanges b a := by
  have hbn : (dkeys (b.nodes.map (fun n => (nodeKey n, n)))).Nodup := by
    have h := of_decide_eq_true hb
    simpa [dkeys, List.map_map, Function.comp_def] using h
  have han : (dkeys (a.nodes.map (fun n => (nodeKey n, n)))).Nodup := by
    have h := of_decide_eq_true ha
    simpa [dkeys, List.map_map, Function.comp_def] using h
  show List.filterMap _ _ ++ List.filterMap _ _ ++ List.filterMap _ _ = _
  rw [dictOfList_of_nodup_dkeys hbn, dictOfList_of_nodup_dkeys han]
  have hAdd : (a.nodes.map (fun n => (nodeKey n, n))).filterMap (fun kv =>
      if dmem kv.1 (b.nodes.map (fun n => (nodeKey n, n))) then none
      else some ({ change_type := "added", node_name := kv.2.name,
                   node_type := kv.2.node_type } : NodeChange))
      = (a.nodes.filter (fun n => !hasNodeKey b (nodeKey n))).map (fun n =>
        { change_type := "added", node_name := n.name, node_type := n.node_type }) := by
    rw [List.filterMap_map, filter_map_eq_filterMap]
    apply filterMap_ext
    intro n _
    show (if dmem (nodeKey n) (b.nodes.map (fun m => (nodeKey m, m))) then none
          else some _) = _
    rw [dmem_map_pair]
    cases h : hasNodeKey b (nodeKey n)
    · simpa [hasNodeKey] using h
    · simpa [hasNodeKey] using h
  have hRem : (b.nodes.map (fun n => (nodeKey n, n))).filterMap (fun kv =>
      if dmem kv.1 (a.nodes.map (fun n => (nodeKey n, n))) then none
      else some ({ change_type := "removed", node_name := kv.2.name,
                   node_type := kv.2.node_type } : NodeChange))
      = (b.nodes.filter (fun n => !hasNodeKey a (nodeKey n))).map (fun n =>
        { change_type := "removed", node_name := n.name, node_type := n.node_type }) := by
    rw [List.filterMap_map, filter_map_eq_filterMap]
    apply filterMap_ext
    intro n _
    show (if dmem (nodeKey n) (a.nodes.map (fun m => (nodeKey m, m))) then none
          else some _) = _
    rw [dmem_map_pair]
    cases h : hasNodeKey a (nodeKey n)
    · simpa [hasNodeKey] using h
    · simpa [hasNodeKey] using h
  have hMod : (b.nodes.map (fun n => (nodeKey n, n))).filterMap (fun kv =>
      match dlookup kv.1 (a.nodes.map (fun n => (nodeKey n, n))) with
      | none => none
      | some x =>
        if metaEqb kv.2.metadata x.metadata then none
        else some ({ change_type := "modified", node_name := x.name,
                     node_type := x.node_type,
                     details := "metadata changed" } : NodeChange))
      = b.nodes.filterMap (fun n =>
        match findNodeByKey a (nodeKey n) with
        | none => none
        | some x =>
          if metaEqb n.metadata x.metadata then none
          else some { change_type := "modified", node_name := x.name,
                      node_type := x.node_type, details := "metadata changed" }) := by
    rw [List.filterMap_map]
    apply filterMap_ext
    intro n _
    show (match dlookup (nodeKey n) (a.nodes.map (fun m => (nodeKey m, m))) with
          | none => none
          | some x =>
            if metaEqb n.metadata x.metadata then none
            else some ({ change_type := "modified", node_name := x.name,
                         node_type := x.node_type,
                         details := "metadata changed" } : NodeChange)) = _
    rw [dlookup_map_pair]
    rfl
  rw [hAdd, hRem, hMod]
  rfl

/-- Witness for C2: before-graph with nodes (job,a) and (job,c), after-graph
with (job,a) carrying different metadata and a new (job,b). -/
theorem diff_node_change_policy_witness :
    (GraphDiffer.diff
        { id := "b", nodes := [
            { id := "n1", node_type := "job", name := "a",
              metadata := [("x", MetaVal.str "1")] },
            { id := "n3", node_type := "job", name := "c" }] }
        { id := "a", nodes := [
            { id := "n4", node_type := "job", name := "a",
              metadata := [("x", MetaVal.str "2")] },
            { id := "n5", node_type := "job", name := "b" }] }).node_changes
      = specNodeChanges
        { id := "b", nodes := [
            { id := "n1", node_type := "job", name := "a",
              metadata := [("x", MetaVal.str "1")] },
            { id := "n3", node_type := "job", name := "c" }] }
        { id := "a", nodes := [
            { id := "n4", node_type := "job", name := "a",
              metadata := [("x", MetaVal.str "2")] },
            { id := "n5", node_type := "job", name := "b" }] } :=
  diff_node_change_policy
    { id := "b", nodes := [
        { id := "n1", node_type := "job", name := "a",
          metadata := [("x", MetaVal.str "1")] },
        { id := "n3", node_type := "job", name := "c" }] }
    { id := "a", nodes := [
        { id := "n4", node_type := "job", name := "a",
          metadata := [("x", MetaVal.str "2")] },
        { id := "n5", node_type := "job", name := "b" }] }
    (by decide) (by decide)

/-! ## GraphBuilder (src/atlas_graph/builder.py) -/

/-- The builder's dedup key, the f-string `"{node.node_type}:{node.name}"`. -/
def nodeDictKey (n : Node) : String := n.node_type ++ ":" ++ n.name

/-- `GraphBuilder`: the graph under construction plus the internal
"type:name" → node-id index used for deduplication. -/
structure GraphBuilder where
  graph : CICDGraph
  node_index : List (String × String)
deriving Repr

/-- `GraphBuilder.__init__(name, platform)`. -/
def GraphBuilder.init (name : String) (platform : Option String) : GraphBuilder :=
  { graph := { name := name, platform := platform }, node_index := [] }

/-- `GraphBuilder.add_nodes`: for each node in order, skip it when its key is
already indexed, otherwise append it to the graph and index its id. -/
def GraphBuilder.add_nodes (b : GraphBuilder) (nodes : List Node) : GraphBuilder :=
  nodes.foldl (fun b node =>
    if dmem (nodeDictKey node) b.node_index then b
    else { graph := b.graph.add_node node,
           node_index := dinsert (nodeDictKey node) node.id b.node_index }) b

/-- The `add_edges` validation test: both endpoints are in the valid-id set. -/
def edgeValid (valid_ids : List String) (e : Edge) : Bool :=
  decide (e.source_node_id ∈ valid_ids) && decide (e.target_node_id ∈ valid_ids)

/-- `GraphBuilder.add_edges`: the valid-id set is computed from the graph's
node list at call time; an edge is appended iff both endpoints are in it. -/
def GraphBuilder.add_edges (b : GraphBuilder) (edges : List Edge) : GraphBuilder :=
  let valid_ids := b.graph.nodes.map Node.id
  { b with graph := edges.foldl (fun g e =>
      if edgeValid valid_ids e then g.add_edge e else g) b.graph }

/-- `GraphBuilder.build`: returns the graph constructed so far. -/
def GraphBuilder.build (b : GraphBuilder) : CICDGraph := b.graph

/-- `GraphBuilder.from_parse_result`. -/
def GraphBuilder.from_parse_result (name : String) (nodes : List Node)
    (edges : List Edge) (platform : Option String) : CICDGraph :=
  (((GraphBuilder.init name platform).add_nodes nodes).add_edges edges).build

/-- A call against one builder instance: an `add_nodes` or an `add_edges`
call with its argument list. -/
inductive BuildOp where
  | addNodesOp (ns : List Node)
  | addEdgesOp (es : List Edge)

/-- Run a sequence of builder calls. -/
def GraphBuilder.runOps (b : GraphBuilder) : List BuildOp → GraphBuilder
  | [] => b
  | BuildOp.addNodesOp ns :: rest => (b.add_nodes ns).runOps rest
  | BuildOp.addEdgesOp es :: rest => (b.add_edges es).runOps rest

/-- Spec-side dedup: keep each node whose key was not seen before, first
occurrence winning; `seen` holds the keys already taken. -/
def firstOccByKey : List Node → List String → List Node
  | [], _ => []
  | n :: rest, seen =>
    if nodeDictKey n ∈ seen then firstOccByKey rest seen
    else n :: firstOccByKey rest (nodeDictKey n :: seen)

/-! ### Builder lemmas -/

theorem dmem_dinsert {K V : Type} [DecidableEq K] (k k0 : K) (v : V) (d : List (K × V)) :
    dmem k (dinsert k0 v d) = true ↔ k = k0 ∨ dmem k d = true := by
  rw [dmem_iff_mem_dkeys, dmem_iff_mem_dkeys]
  by_cases h : k0 ∈ dkeys d
  · rw [dkeys_dinsert_of_mem v h]
    constructor
    · exact Or.inr
    · rintro (rfl | hk)
      · exact h
      · exact hk
  · rw [dkeys_dinsert_of_not_mem v h]
    simp [List.mem_append, or_comm]

theorem add_nodes_nil (b : GraphBuilder) : b.add_nodes [] = b := rfl

theorem add_nodes_cons (b : GraphBuilder) (n : Node) (rest : List Node) :
    b.add_nodes (n :: rest) =
      GraphBuilder.add_nodes
        (if dmem (nodeDictKey n) b.node_index then b
         else { graph := b.graph.add_node n,
                node_index := dinsert (nodeDictKey n) n.id b.node_index }) rest := rfl

theorem add_nodes_nodes (nodes : List Node) :
    ∀ (b : GraphBuilder) (seen : List String),
      (∀ k, dmem k b.node_index = true ↔ k ∈ seen) →
      (b.add_nodes nodes).graph.nodes = b.graph.nodes ++ firstOccByKey nodes seen := by
  induction nodes with
  | nil =>
    intro b seen _
    simp [add_nodes_nil, firstOccByKey]
  | cons n rest ih =>
    intro b seen hinv
    rw [add_nodes_cons]
    by_cases h : dmem (nodeDictKey n) b.node_index = true
    · have hseen : nodeDictKey n ∈ seen := (hinv _).mp h
      rw [if_pos h, ih b seen hinv]
      simp [firstOccByKey, hseen]
    · have hseen : nodeDictKey n ∉ seen := fun hs => h ((hinv _).mpr hs)
      have h' : ¬ dmem (nodeDictKey n) b.node_index = true := h
      rw [if_neg h']
      have hinv2 : ∀ k, dmem k (dinsert (nodeDictKey n) n.id b.node_index) = true ↔
          k ∈ nodeDictKey n :: seen := by
        intro k
        rw [dmem_dinsert, List.mem_cons, hinv]
      rw [ih _ _ hinv2]
      simp [CICDGraph.add_node, firstOccByKey, hseen]

theorem add_nodes_edges (nodes : List Node) :
    ∀ b : GraphBuilder, (b.add_nodes nodes).graph.edges = b.graph.edges := by
  induction nodes with
  | nil => intro b; rfl
  | cons n rest ih =>
    intro b
    rw [add_nodes_cons]
    by_cases h : dmem (nodeDictKey n) b.node_index = true
    · rw [if_pos h]
      exact ih b
    · rw [if_neg h]
      rw [ih]
      rfl

theorem add_nodes_nodes_extend (nodes : List Node) :
    ∀ b : GraphBuilder, ∃ ext, (b.add_nodes nodes).graph.nodes = b.graph.nodes ++ ext := by
  induction nodes with
  | nil => intro b; exact ⟨[], by simp [add_nodes_nil]⟩
  | cons n rest ih =>
    intro b
    rw [add_nodes_cons]
    by_cases h : dmem (nodeDictKey n) b.node_index = true
    · rw [if_pos h]
      exact ih b
    · rw [if_neg h]
      rcases ih { graph := b.graph.add_node n,
                  node_index := dinsert (nodeDictKey n) n.id b.node_index } with ⟨ext, he⟩
      refine ⟨n :: ext, ?_⟩
      rw [he]
      simp [CICDGraph.add_node]

theorem foldl_edge_step (p : Edge → Bool) (es : List Edge) :
    ∀ g : CICDGraph,
      (es.foldl (fun g e => if p e then g.add_edge e else g) g).nodes = g.nodes ∧
      (es.foldl (fun g e => if p e then g.add_edge e else g) g).edges
        = g.edges ++ es.filter p := by
  induction es with
  | nil => intro g; simp
  | cons e rest ih =>
    intro g
    rw [List.foldl_cons, List.filter_cons]
    cases h : p e
    · rw [if_neg (by simp [h]), if_neg (by simp [h])]
      exact ih g
    · rw [if_pos (by simp [h]), if_pos (by simp [h])]
      rcases ih (g.add_edge e) with ⟨h1, h2⟩
      refine ⟨by rw [h1]; rfl, ?_⟩
      rw [h2]
      simp [CICDGraph.add_edge]

theorem add_edges_graph (b : GraphBuilder) (es : List Edge) :
    (b.add_edges es).graph.nodes = b.graph.nodes ∧
    (b.add_edges es).graph.edges
      = b.graph.edges ++ es.filter (edgeValid (b.graph.nodes.map Node.id)) := by
  exact foldl_edge_step (edgeValid (b.graph.nodes.map Node.id)) es b.graph

theorem mem_add_edges_iff (b : GraphBuilder) (es : List Edge) (e : Edge) :
    e ∈ (b.add_edges es).graph.edges ↔
      e ∈ b.graph.edges ∨ (e ∈ es ∧
        e.source_node_id ∈ b.graph.nodes.map Node.id ∧
        e.target_node_id ∈ b.graph.nodes.map Node.id) := by
  rw [(add_edges_graph b es).2, List.mem_append, List.mem_filter]
  simp [edgeValid, and_assoc]

theorem runOps_edge_validity (ops : List BuildOp) :
    ∀ b : GraphBuilder,
      (∀ e ∈ b.graph.edges, e.source_node_id ∈ b.graph.nodes.map Node.id ∧
        e.target_node_id ∈ b.graph.nodes.map Node.id) →
      ∀ e ∈ (b.runOps ops).graph.edges,
        e.source_node_id ∈ (b.runOps ops).graph.nodes.map Node.id ∧
        e.target_node_id ∈ (b.runOps ops).graph.nodes.map Node.id := by
  induction ops with
  | nil => intro b hb; exact hb
  | cons op rest ih =>
    intro b hb
    cases op with
    | addNodesOp ns =>
      show ∀ e ∈ ((b.add_nodes ns).runOps rest).graph.edges, _
      apply ih
      intro e he
      rw [add_nodes_edges] at he
      rcases add_nodes_nodes_extend ns b with ⟨ext, hext⟩
      rcases hb e he with ⟨h1, h2⟩
      rw [hext, List.map_append]
      exact ⟨List.mem_append_left _ h1, List.mem_append_left _ h2⟩
    | addEdgesOp es =>
      show ∀ e ∈ ((b.add_edges es).runOps rest).graph.edges, _
      apply ih
      intro e he
      rw [mem_add_edges_iff] at he
      have hnodes := (add_edges_graph b es).1
      rw [hnodes]
      rcases he with he | ⟨_, h1, h2⟩
      · exact hb e he
      · exact ⟨h1, h2⟩

/-- Claim C3: across any sequence of `add_nodes` calls on one builder, the
built graph holds exactly the first-added node of each `(node_type, name)`
key, in first-occurrence order; later nodes with an already-seen key are
dropped. -/
theorem add_nodes_first_occurrence_wins (name : String) (platform : Option String)
    (batches : List (List Node)) :
    (batches.foldl GraphBuilder.add_nodes (GraphBuilder.init name platform)).build.nodes
      = firstOccByKey batches.flatten [] := by
  have hjoin : ∀ (bs : List (List Node)) (b : GraphBuilder),
      bs.foldl GraphBuilder.add_nodes b = b.add_nodes bs.flatten := by
    intro bs
    induction bs with
    | nil => intro b; rfl
    | cons l rest ih =>
      intro b
      rw [List.foldl_cons, ih, List.flatten_cons]
      show _ = List.foldl _ b (l ++ rest.flatten)
      rw [List.foldl_append]
      rfl
  rw [hjoin]
  have h := add_nodes_nodes batches.flatten (GraphBuilder.init name platform) []
    (by intro k; simp [GraphBuilder.init, dmem])
  simpa [GraphBuilder.build, GraphBuilder.init] using h

/-- Claim C4: an `add_edges` call adds an edge iff both endpoints are node
ids present in the graph at the time of that call (first conjunct), so every
edge of a graph built by any call sequence has both endpoints among the
built graph's node ids, and invalid edges are silently absent (second
conjunct). -/
theorem add_edges_validates_endpoints :
    (∀ (b : GraphBuilder) (es : List Edge) (e : Edge),
      e ∈ (b.add_edges es).graph.edges ↔
        e ∈ b.graph.edges ∨ (e ∈ es ∧
          e.source_node_id ∈ b.graph.nodes.map Node.id ∧
          e.target_node_id ∈ b.graph.nodes.map Node.id)) ∧
    (∀ (name : String) (platform : Option String) (ops : List BuildOp),
      ∀ e ∈ ((GraphBuilder.init name platform).runOps ops).build.edges,
        e.source_node_id ∈
          ((GraphBuilder.init name platform).runOps ops).build.nodes.map Node.id ∧
        e.target_node_id ∈
          ((GraphBuilder.init name platform).runOps ops).build.nodes.map Node.id) := by
  refine ⟨mem_add_edges_iff, ?_⟩
  intro name platform ops e he
  exact runOps_edge_validity ops (GraphBuilder.init name platform)
    (by intro e' he'; cases he') e he

/-- Claim C10 (implicit): a node dropped as a duplicate leaves the builder
state unchanged, and any edge referencing the dropped node's id (absent from
the graph's node ids) is never added by a later `add_edges` call. -/
theorem dropped_duplicate_loses_edges (b : GraphBuilder) (d : Node)
    (h1 : dmem (nodeDictKey d) b.node_index = true) :
    b.add_nodes [d] = b ∧
    ∀ (b2 : GraphBuilder) (es : List Edge) (e : Edge),
      d.id ∉ b2.graph.nodes.map Node.id →
      (e.source_node_id = d.id ∨ e.target_node_id = d.id) →
      e ∈ (b2.add_edges es).graph.edges → e ∈ b2.graph.edges := by
  constructor
  · show List.foldl _ _ [d] = b
    simp [h1]
  · intro b2 es e hid href he
    rw [mem_add_edges_iff] at he
    rcases he with he | ⟨_, h2, h3⟩
    · exact he
    · rcases href with hr | hr
      · rw [hr] at h2
        exact absurd h2 hid
      · rw [hr] at h3
        exact absurd h3 hid

/-- Witness for C10: the duplicate (job, a) node with fresh id "id9" is
dropped, and the edge id1 → id9 survives `add_edges` only because it was
already in the graph. -/
theorem dropped_duplicate_loses_edges_witness :
    ({ edge_type := "calls", source_node_id := "id1",
       target_node_id := "id9" } : Edge) ∈
      ({ graph := { name := "h",
                    edges := [{ edge_type := "calls", source_node_id := "id1",
                                target_node_id := "id9" }] },
         node_index := [] } : GraphBuilder).graph.edges :=
  (dropped_duplicate_loses_edges
    { graph := { name := "g",
                 nodes := [{ id := "id1", node_type := "job", name := "a" }] },
      node_index := [("job:a", "id1")] }
    { id := "id9", node_type := "job", name := "a" }
    (by decide)).2
    { graph := { name := "h",
                 edges := [{ edge_type := "calls", source_node_id := "id1",
                             target_node_id := "id9" }] },
      node_index := [] }
    []
    { edge_type := "calls", source_node_id := "id1", target_node_id := "id9" }
    (by decide) (Or.inr rfl) (by decide)

/-! ## CrossProjectLinker (src/atlas_graph/cross_project.py) -/

/-- Modelled from the spec: atlas_sdk's CrossProjectEdge; `confidence`
defaults to 1.0 for structural matches. -/
structure CrossProjectEdge where
  id : String := ""
  source_graph_id : String
  source_node_id : String
  target_graph_id : String
  target_node_id : String
  link_type : String
  confidence : Rat := 1
deriving DecidableEq, Repr

/-- Modelled from the spec: atlas_sdk's MultiProjectGraph, a read-through
aggregate of member graphs plus the cross-project edges. -/
structure MultiProjectGraph where
  name : String
  graphs : List CICDGraph := []
  cross_edges : List CrossProjectEdge := []
deriving Repr

/-- Modelled from the spec: `add_graph` appends a member graph. -/
def MultiProjectGraph.add_graph (m : MultiProjectGraph) (g : CICDGraph) : MultiProjectGraph :=
  { m with graphs := m.graphs ++ [g] }

/-- Modelled from the spec: `add_cross_edge` appends a cross-project edge. -/
def MultiProjectGraph.add_cross_edge (m : MultiProjectGraph) (e : CrossProjectEdge) :
    MultiProjectGraph :=
  { m with cross_edges := m.cross_edges ++ [e] }

/-- `LINKABLE_TYPES` (cross_project.py): node types shareable across
projects, as their string forms. -/
def LINKABLE_TYPES : List String :=
  ["artifact", "container_image", "secret_ref", "environment", "external_service"]

/-- `TRIGGER_EDGE_TYPES` (cross_project.py). -/
def TRIGGER_EDGE_TYPES : List String := ["triggers"]

/-- `CrossProjectLinker._normalize`: lowercase, strip whitespace, then walk
the three prefixes in order, slicing each off when the current name starts
with it (the loop has no break, so several can be stripped in sequence),
and strip again. -/
def CrossProjectLinker.normalize (name : String) : String :=
  pyStrip (["secret:", "env:", "image:"].foldl
    (fun n p => if pyStartsWith n p then pySliceFrom n (pyLen p) else n)
    (pyStrip (pyLower name)))

/-- `CrossProjectLinker._link_type_for`: the static node-type → link-type
table with default "shared_resource". -/
def CrossProjectLinker.link_type_for (node_type : String) : String :=
  (dlookup node_type
    [("artifact", "shared_artifact"), ("container_image", "shared_image"),
     ("secret_ref", "shared_secret"), ("environment", "shared_env"),
     ("external_service", "shared_service")]).getD "shared_resource"

/-- The linker's shared-resource index (cross_project.py lines 56-63):
`(node_type, normalized_name)` → list of `(graph_id, node_id)` occurrences,
built across all graphs in order (a `defaultdict(list)`). -/
def CrossProjectLinker.node_index (graphs : List CICDGraph) :
    List ((String × String) × List (String × String)) :=
  graphs.foldl (fun idx g =>
    g.nodes.foldl (fun idx n =>
      if n.node_type ∈ LINKABLE_TYPES then
        dappend (n.node_type, CrossProjectLinker.normalize n.name) (g.id, n.id) idx
      else idx) idx) []

/-- Pass A (cross_project.py lines 65-84): for every key with at least two
occurrences, link the first occurrence to every later occurrence from a
different graph. -/
def CrossProjectLinker.pass_a (multi : MultiProjectGraph) :
    List ((String × String) × List (String × String)) → MultiProjectGraph
  | [] => multi
  | kv :: rest =>
    CrossProjectLinker.pass_a
      (if kv.2.length < 2 then multi
       else
         match kv.2 with
         | [] => multi
         | loc0 :: locs =>
           locs.foldl (fun m tl =>
             if tl.1 = loc0.1 then m
             else m.add_cross_edge
               { source_graph_id := loc0.1, source_node_id := loc0.2,
                 target_graph_id := tl.1, target_node_id := tl.2,
                 link_type := CrossProjectLinker.link_type_for kv.1.1 }) multi)
      rest

/-- The trigger pass's pipeline index (cross_project.py lines 126-130):
normalized pipeline name → `(graph_id, node_id)`, last write winning. -/
def CrossProjectLinker.pipeline_index (graphs : List CICDGraph) :
    List (String × (String × String)) :=
  graphs.foldl (fun idx g =>
    g.nodes.foldl (fun idx n =>
      if n.node_type = "pipeline" then
        dinsert (CrossProjectLinker.normalize n.name) (g.id, n.id) idx
      else idx) idx) []

/-- The trigger edges one graph's edge list contributes
(cross_project.py lines 132-150). -/
def CrossProjectLinker.trigger_edges_for
    (pipeline_index : List (String × (String × String))) (g : CICDGraph) :
    List Edge → List CrossProjectEdge
  | [] => []
  | e :: rest =>
    (if e.edge_type ∈ TRIGGER_EDGE_TYPES then
      match g.get_node e.target_node_id with
      | none => []
      | some tn =>
        match dlookup (CrossProjectLinker.normalize tn.name) pipeline_index with
        | none => []
        | some tl =>
          if tl.1 ≠ g.id then
            [{ source_graph_id := g.id, source_node_id := e.source_node_id,
               target_graph_id := tl.1, target_node_id := tl.2,
               link_type := "cross_trigger", confidence := 7/10 }]
          else []
    else []) ++ CrossProjectLinker.trigger_edges_for pipeline_index g rest

/-- `CrossProjectLinker._detect_triggers`. -/
def CrossProjectLinker.detect_triggers (graphs : List CICDGraph) :
    List CrossProjectEdge :=
  graphs.foldl (fun acc g =>
    acc ++ CrossProjectLinker.trigger_edges_for
      (CrossProjectLinker.pipeline_index graphs) g g.edges) []

/-- `CrossProjectLinker.link`: collect the input graphs, run Pass A over the
shared-resource index, then append the detected trigger edges. -/
def CrossProjectLinker.link (graphs : List CICDGraph) (name : String) :
    MultiProjectGraph :=
  (CrossProjectLinker.detect_triggers graphs).foldl MultiProjectGraph.add_cross_edge
    (CrossProjectLinker.pass_a
      (graphs.foldl MultiProjectGraph.add_graph { name := name })
      (CrossProjectLinker.node_index graphs))

/-! ### Linker lemmas -/

theorem foldl_fixed {α β : Type} (f : β → α → β) (l : List α)
    (h : ∀ acc, ∀ x ∈ l, f acc x = acc) : ∀ acc, l.foldl f acc = acc := by
  induction l with
  | nil => intro acc; rfl
  | cons x rest ih =>
    intro acc
    rw [List.foldl_cons, h acc x (by simp)]
    exact ih (fun acc y hy => h acc y (List.mem_cons_of_mem _ hy)) acc

theorem dlookup_mem {K V : Type} [DecidableEq K] {k : K} {v : V} :
    ∀ {d : List (K × V)}, dlookup k d = some v → (k, v) ∈ d := by
  intro d
  induction d with
  | nil => intro h; cases h
  | cons kv rest ih =>
    intro h
    rw [dlookup_cons] at h
    by_cases hk : kv.1 = k
    · rw [if_pos hk] at h
      have hv : kv.2 = v := Option.some.inj h
      refine List.mem_cons.mpr (Or.inl ?_)
      rw [← hk, ← hv]
    · rw [if_neg hk] at h
      exact List.mem_cons_of_mem _ (ih h)

theorem mem_dappend {K V : Type} [DecidableEq K] {P : V → Prop}
    (k : K) (v : V) {d : List (K × List V)}
    (hd : ∀ kv ∈ d, ∀ x ∈ kv.2, P x) (hv : P v) :
    ∀ kv ∈ dappend k v d, ∀ x ∈ kv.2, P x := by
  induction d with
  | nil =>
    intro kv hkv x hx
    simp only [dappend, List.mem_singleton] at hkv
    rw [hkv] at hx
    rw [List.mem_singleton.mp hx]
    exact hv
  | cons hd0 rest ih =>
    intro kv hkv x hx
    by_cases hk : hd0.1 = k
    · simp only [dappend, hk, if_true, List.mem_cons] at hkv
      rcases hkv with h1 | h1
      · rw [h1] at hx
        simp only [List.mem_append, List.mem_singleton] at hx
        rcases hx with h2 | h2
        · exact hd hd0 (by simp) x h2
        · rw [h2]; exact hv
      · exact hd kv (List.mem_cons_of_mem _ h1) x hx
    · simp only [dappend, hk, if_false, List.mem_cons] at hkv
      rcases hkv with h1 | h1
      · rw [h1] at hx
        exact hd hd0 (by simp) x hx
      · exact ih (fun kv h => hd kv (List.mem_cons_of_mem _ h)) kv h1 x hx

theorem node_index_single_graph (g : CICDGraph) :
    ∀ kv ∈ CrossProjectLinker.node_index [g], ∀ x ∈ kv.2, x.1 = g.id := by
  suffices h : ∀ (ns : List Node)
      (idx : List ((String × String) × List (String × String))),
      (∀ kv ∈ idx, ∀ x ∈ kv.2, x.1 = g.id) →
      ∀ kv ∈ ns.foldl (fun idx n =>
        if n.node_type ∈ LINKABLE_TYPES then
          dappend (n.node_type, CrossProjectLinker.normalize n.name) (g.id, n.id) idx
        else idx) idx, ∀ x ∈ kv.2, x.1 = g.id by
    exact h g.nodes [] (by intro kv h; cases h)
  intro ns
  induction ns with
  | nil => intro idx hidx; exact hidx
  | cons n rest ih =>
    intro idx hidx
    rw [List.foldl_cons]
    by_cases h : n.node_type ∈ LINKABLE_TYPES
    · rw [if_pos h]
      exact ih _ (mem_dappend _ _ hidx rfl)
    · rw [if_neg h]
      exact ih _ hidx

theorem pipeline_index_single_graph (g : CICDGraph) :
    ∀ kv ∈ CrossProjectLinker.pipeline_index [g], kv.2.1 = g.id := by
  suffices h : ∀ (ns : List Node) (idx : List (String × (String × String))),
      (∀ kv ∈ idx, kv.2.1 = g.id) →
      ∀ kv ∈ ns.foldl (fun idx n =>
        if n.node_type = "pipeline" then
          dinsert (CrossProjectLinker.normalize n.name) (g.id, n.id) idx
        else idx) idx, kv.2.1 = g.id by
    exact h g.nodes [] (by intro kv h; cases h)
  intro ns
  induction ns with
  | nil => intro idx hidx; exact hidx
  | cons n rest ih =>
    intro idx hidx
    rw [List.foldl_cons]
    by_cases h : n.node_type = "pipeline"
    · rw [if_pos h]
      refine ih _ ?_
      intro kv hkv
      rcases mem_dinsert hkv with h1 | h1
      · rw [h1]
      · exact hidx kv h1
    · rw [if_neg h]
      exact ih _ hidx

theorem pass_a_fixed (gid : String) :
    ∀ (idx : List ((String × String) × List (String × String)))
      (multi : MultiProjectGraph),
      (∀ kv ∈ idx, ∀ x ∈ kv.2, x.1 = gid) →
      CrossProjectLinker.pass_a multi idx = multi := by
  intro idx
  induction idx with
  | nil => intro multi _; rfl
  | cons kv rest ih =>
    intro multi hidx
    rw [CrossProjectLinker.pass_a]
    have hstep : (if kv.2.length < 2 then multi
       else
         match kv.2 with
         | [] => multi
         | loc0 :: locs =>
           locs.foldl (fun m tl =>
             if tl.1 = loc0.1 then m
             else m.add_cross_edge
               { source_graph_id := loc0.1, source_node_id := loc0.2,
                 target_graph_id := tl.1, target_node_id := tl.2,
                 link_type := CrossProjectLinker.link_type_for kv.1.1 }) multi) = multi := by
      by_cases hl : kv.2.length < 2
      · rw [if_pos hl]
      · rw [if_neg hl]
        rcases hls : kv.2 with _ | ⟨loc0, locs⟩
        · rfl
        · have hall : ∀ tl ∈ locs, tl.1 = loc0.1 := by
            intro tl htl
            have h1 : tl.1 = gid := hidx kv (by simp) tl (by rw [hls]; exact List.mem_cons_of_mem _ htl)
            have h2 : loc0.1 = gid := hidx kv (by simp) loc0 (by rw [hls]; simp)
            rw [h1, h2]
          apply foldl_fixed
          intro m tl htl
          rw [if_pos (hall tl htl)]
    rw [hstep]
    exact ih multi (fun kv2 h2 => hidx kv2 (List.mem_cons_of_mem _ h2))

theorem trigger_edges_single_graph (g : CICDGraph)
    (pidx : List (String × (String × String)))
    (hpidx : ∀ kv ∈ pidx, kv.2.1 = g.id) :
    ∀ es : List Edge, CrossProjectLinker.trigger_edges_for pidx g es = [] := by
  intro es
  induction es with
  | nil => rfl
  | cons e rest ih =>
    rw [CrossProjectLinker.trigger_edges_for, ih, List.append_nil]
    by_cases h : e.edge_type ∈ TRIGGER_EDGE_TYPES
    · rw [if_pos h]
      rcases hn : g.get_node e.target_node_id with _ | tn
      · rfl
      · show (match dlookup (CrossProjectLinker.normalize tn.name) pidx with
          | none => ([] : List CrossProjectEdge)
          | some tl =>
            if tl.1 ≠ g.id then
              [{ source_graph_id := g.id, source_node_id := e.source_node_id,
                 target_graph_id := tl.1, target_node_id := tl.2,
                 link_type := "cross_trigger", confidence := 7/10 }]
            else []) = []
        rcases hl : dlookup (CrossProjectLinker.normalize tn.name) pidx with _ | tl
        · rfl
        · have : tl.1 = g.id := hpidx _ (dlookup_mem hl)
          simp [this]
    · rw [if_neg h]

theorem detect_triggers_single_graph (g : CICDGraph) :
    CrossProjectLinker.detect_triggers [g] = [] := by
  show [] ++ CrossProjectLinker.trigger_edges_for
      (CrossProjectLinker.pipeline_index [g]) g g.edges = []
  rw [List.nil_append]
  exact trigger_edges_single_graph g _ (pipeline_index_single_graph g) g.edges

/-- Claim C8: linking a single graph produces no cross-project edges:
neither the shared-resource pass nor the trigger pass emits an edge. -/
theorem link_single_graph_no_cross_edges (g : CICDGraph) (name : String) :
    (CrossProjectLinker.link [g] name).cross_edges = [] := by
  show ((CrossProjectLinker.detect_triggers [g]).foldl MultiProjectGraph.add_cross_edge
    (CrossProjectLinker.pass_a
      ([g].foldl MultiProjectGraph.add_graph { name := name })
      (CrossProjectLinker.node_index [g]))).cross_edges = []
  rw [detect_triggers_single_graph g,
    pass_a_fixed g.id (CrossProjectLinker.node_index [g]) _ (node_index_single_graph g)]
  rfl

/-- One prefix stripped conditionally: the spec-side building block of the
amended normalization. -/
def stripIfStarts (p : String) (s : String) : String :=
  if pyStartsWith s p then pySliceFrom s (pyLen p) else s

/-- The normalization the code implements, worded as the amended claim:
lowercase and trim, then try "secret:", then "env:", then "image:" in that
order, stripping each prefix the current name starts with (so several can be
removed in sequence), then trim again. -/
def specNormalizeSequential (name : String) : String :=
  pyStrip (stripIfStarts "image:"
    (stripIfStarts "env:" (stripIfStarts "secret:" (pyStrip (pyLower name)))))

/-- Counterexample to C9 as stated: normalizing "secret:env:deploy_key"
strips two prefixes, yielding "deploy_key", which differs from the two
possible at-most-one-prefix results "env:deploy_key" (one prefix stripped)
and "secret:env:deploy_key" (none stripped). -/
theorem normalize_strips_two_prefixes :
    CrossProjectLinker.normalize "secret:env:deploy_key" = "deploy_key" ∧
    "deploy_key" ≠ "env:deploy_key" ∧
    "deploy_key" ≠ "secret:env:deploy_key" := by
  refine ⟨by decide, by decide, by decide⟩

/-- Claim C9 (amended): normalization lowercases and trims, then strips the
prefixes "secret:", "env:", "image:" sequentially in that order (each at
most once, so up to all three can be removed), then trims again; in
particular "secret:DEPLOY_KEY" and "DEPLOY_KEY" normalize identically. -/
theorem normalize_sequential_and_secret_key :
    (∀ name, CrossProjectLinker.normalize name = specNormalizeSequential name) ∧
    CrossProjectLinker.normalize "secret:DEPLOY_KEY"
      = CrossProjectLinker.normalize "DEPLOY_KEY" := by
  constructor
  · intro name
    rfl
  · decide

/-! ## DiffSimulator (src/atlas_graph/simulator.py)

The simulator is the one component that mutates node metadata through
object references: `_apply_suggestion` writes into the metadata dicts of a
`deepcopy` of the input graph.  To make the no-mutation guarantee (and what
would go wrong without the deep copy) expressible, the simulator is embedded
over an explicit store of metadata cells: a node holds a reference (index)
into the store, `deepcopy` allocates fresh cells copying the contents, and
metadata assignment writes the referenced cell.  All other data is passed by
value as before. -/

/-- The store of metadata mappings nodes reference. -/
structure Store where
  cells : List Metadata
deriving Repr

/-- Dereference: Python reads the dict object a node points to. -/
def Store.read (h : Store) (r : Nat) : Metadata := h.cells.getD r []

/-- Mutate the dict object at reference `r`. -/
def Store.write (h : Store) (r : Nat) (m : Metadata) : Store :=
  ⟨h.cells.set r m⟩

/-- Allocate a fresh dict object holding `m`; returns the new store and the
fresh reference. -/
def Store.alloc (h : Store) (m : Metadata) : Store × Nat :=
  (⟨h.cells ++ [m]⟩, h.cells.length)

/-- A node as the simulator sees it: plain fields plus a reference to its
metadata cell. -/
structure HNode where
  id : String
  node_type : String := ""
  name : String := ""
  meta : Nat
deriving DecidableEq, Repr

/-- A graph over store-referenced nodes (edges carry no mutable state and
stay by-value). -/
structure HGraph where
  id : String := ""
  name : String := ""
  nodes : List HNode := []
  edges : List Edge := []
deriving DecidableEq, Repr

/-- `copy.deepcopy` on the node list: each copied node gets a fresh metadata
cell holding a copy of the original cell's contents. -/
def deepcopyNodes (h : Store) : List HNode → Store × List HNode
  | [] => (h, [])
  | n :: rest =>
    let ar := h.alloc (h.read n.meta)
    let hr := deepcopyNodes ar.1 rest
    (hr.1, { n with meta := ar.2 } :: hr.2)

/-- `copy.deepcopy(graph)` (simulator.py line 54): value-copies the graph,
its edge list, and every node with a freshly allocated metadata cell. -/
def deepcopyGraph (h : Store) (g : HGraph) : Store × HGraph :=
  let hr := deepcopyNodes h g.nodes
  (hr.1, { id := g.id, name := g.name, nodes := hr.2, edges := g.edges })

/-- A rule-engine `Finding` (external input; modelled from the spec). -/
structure Finding where
  rule_id : String
  affected_node_ids : List String := []
deriving DecidableEq, Repr

/-- A `RefactorSuggestion` (external input; modelled from the spec). -/
structure RefactorSuggestion where
  rule_id : String
  description : String := ""
  risk_level : String := ""
  effort_estimate : String := ""
  before_snippet : String := ""
  after_snippet : String := ""
  affected_node_ids : List String := []
deriving DecidableEq, Repr

/-- A `RefactorPlan` (external input; modelled from the spec). -/
structure RefactorPlan where
  id : String := ""
  name : String := ""
  suggestions : List RefactorSuggestion := []
deriving DecidableEq, Repr

/-- The scoring collaborator's triple (external; modelled from the spec). -/
structure Scores where
  complexity_score : Rat := 0
  fragility_score : Rat := 0
  maturity_score : Rat := 0
deriving DecidableEq, Repr

/-- `ScoreDelta` (modelled from the spec; `delta`/`improved` are derived). -/
structure ScoreDelta where
  metric : String
  before : Rat
  after : Rat
deriving DecidableEq, Repr

/-- `SimulationResult` (modelled from the spec). -/
structure SimulationResult where
  plan_id : String
  graph_id : String
  findings_removed : Nat
  findings_remaining : Nat
  score_deltas : List ScoreDelta
  diff_preview : String
  projected_node_count : Nat
  projected_edge_count : Nat
deriving DecidableEq, Repr

/-- Python `str.splitlines` (restricted to "\n" separators). -/
def pySplitlines (s : String) : List String :=
  if s.data.isEmpty then []
  else
    let parts := s.splitOn "\n"
    if s.data.getLast? = some '\n' then parts.dropLast else parts

/-- 1-based `enumerate` over the suggestions. -/
def enumerateFrom1 : Nat → List RefactorSuggestion → List (Nat × RefactorSuggestion)
  | _, [] => []
  | i, s :: rest => (i, s) :: enumerateFrom1 (i + 1) rest

/-- `DiffSimulator._generate_diff`: header, then per 1-indexed suggestion its
description, risk/effort line, blank, "- "-prefixed before-snippet lines,
"+ "-prefixed after-snippet lines, and a trailing blank line. -/
def DiffSimulator.generate_diff (plan : RefactorPlan) : List String :=
  ["# Diff Preview — " ++ plan.name,
   "# " ++ toString plan.suggestions.length ++ " changes", ""]
  ++ (enumerateFrom1 1 plan.suggestions).flatMap (fun is =>
      ["## [" ++ toString is.1 ++ "] " ++ is.2.description,
       "## Risk: " ++ is.2.risk_level ++ " | Effort: " ++ is.2.effort_estimate,
       ""]
      ++ (pySplitlines is.2.before_snippet).map (fun line => "- " ++ line)
      ++ (pySplitlines is.2.after_snippet).map (fun line => "+ " ++ line)
      ++ [""])

/-- `DiffSimulator._apply_suggestion`: for every node of the (projected)
graph whose id is affected, set `metadata["refactored"] = True` then
`metadata["refactor_rule"] = suggestion.rule_id` in the node's cell. -/
def DiffSimulator.apply_suggestion (h : Store) (g : HGraph)
    (s : RefactorSuggestion) : Store :=
  g.nodes.foldl (fun h node =>
    if node.id ∈ s.affected_node_ids then
      h.write node.meta
        (dinsert "refactor_rule" (MetaVal.str s.rule_id)
          (dinsert "refactored" (MetaVal.boolean true) (h.read node.meta)))
    else h) h

/-- `DiffSimulator.simulate`.  The scoring collaborator (atlas_report's
`compute_scores`, external to this repository) is a parameter; it may read
the store.  Returns the store as left by simulation together with the
result. -/
def DiffSimulator.simulate (compute_scores : Store → HGraph → Scores)
    (h : Store) (graph : HGraph) (findings : List Finding)
    (plan : RefactorPlan) : Store × SimulationResult :=
  let current_scores := compute_scores h graph
  let fixed_rule_ids := plan.suggestions.map RefactorSuggestion.rule_id
  let remaining := findings.filter (fun f => decide (f.rule_id ∉ fixed_rule_ids))
  let removed_count := findings.length - remaining.length
  let hp := deepcopyGraph h graph
  let h2 := plan.suggestions.foldl
    (fun hh s => DiffSimulator.apply_suggestion hh hp.2 s) hp.1
  let projected_scores := compute_scores h2 hp.2
  let deltas := [
    { metric := "complexity", before := current_scores.complexity_score,
      after := projected_scores.complexity_score },
    { metric := "fragility", before := current_scores.fragility_score,
      after := projected_scores.fragility_score },
    { metric := "maturity", before := current_scores.maturity_score,
      after := projected_scores.maturity_score }]
  let diff_lines := DiffSimulator.generate_diff plan
  (h2,
   { plan_id := plan.id, graph_id := graph.id,
     findings_removed := removed_count,
     findings_remaining := remaining.length,
     score_deltas := deltas,
     diff_preview := String.intercalate "\n" diff_lines,
     projected_node_count := hp.2.nodes.length,
     projected_edge_count := hp.2.edges.length })

/-! ### Simulator lemmas -/

theorem deepcopyNodes_nil (h : Store) : deepcopyNodes h [] = (h, []) := rfl

theorem deepcopyNodes_cons (h : Store) (n : HNode) (rest : List HNode) :
    deepcopyNodes h (n :: rest) =
      ((deepcopyNodes (h.alloc (h.read n.meta)).1 rest).1,
       { n with meta := (h.alloc (h.read n.meta)).2 }
         :: (deepcopyNodes (h.alloc (h.read n.meta)).1 rest).2) := rfl

theorem deepcopyNodes_cells (ns : List HNode) :
    ∀ h : Store, ∃ ext, ((deepcopyNodes h ns).1).cells = h.cells ++ ext := by
  induction ns with
  | nil => intro h; exact ⟨[], by simp [deepcopyNodes_nil]⟩
  | cons n rest ih =>
    intro h
    rcases ih (h.alloc (h.read n.meta)).1 with ⟨ext, he⟩
    refine ⟨h.read n.meta :: ext, ?_⟩
    rw [deepcopyNodes_cons]
    show ((deepcopyNodes (h.alloc (h.read n.meta)).1 rest).1).cells = _
    rw [he]
    show (h.cells ++ [h.read n.meta]) ++ ext = _
    simp

theorem deepcopyNodes_fresh (ns : List HNode) :
    ∀ h : Store, ∀ n' ∈ (deepcopyNodes h ns).2, h.cells.length ≤ n'.meta := by
  induction ns with
  | nil =>
    intro h n' hn'
    rw [deepcopyNodes_nil] at hn'
    cases hn'
  | cons n rest ih =>
    intro h n' hn'
    rw [deepcopyNodes_cons] at hn'
    rcases List.mem_cons.mp hn' with h1 | h1
    · rw [h1]
      exact Nat.le_refl _
    · have h2 := ih (h.alloc (h.read n.meta)).1 n' h1
      have hlen : h.cells.length ≤ ((h.alloc (h.read n.meta)).1).cells.length := by
        show h.cells.length ≤ (h.cells ++ [h.read n.meta]).length
        simp
      exact Nat.le_trans hlen h2

theorem deepcopyNodes_len (ns : List HNode) :
    ∀ h : Store, ((deepcopyNodes h ns).2).length = ns.length := by
  induction ns with
  | nil => intro h; rfl
  | cons n rest ih =>
    intro h
    rw [deepcopyNodes_cons]
    simp [ih]

theorem store_read_write_ne (h : Store) (r r' : Nat) (m : Metadata) (hne : r' ≠ r) :
    (h.write r m).read r' = h.read r' := by
  show (h.cells.set r m).getD r' [] = h.cells.getD r' []
  rw [List.getD_eq_getElem?_getD, List.getD_eq_getElem?_getD,
    List.getElem?_set_ne (fun e => hne e.symm)]

theorem foldl_apply_read_lt (s : RefactorSuggestion) (k : Nat) (ns : List HNode)
    (hfresh : ∀ n ∈ ns, k ≤ n.meta) :
    ∀ (h : Store) (r : Nat), r < k →
      (ns.foldl (fun h node =>
        if node.id ∈ s.affected_node_ids then
          h.write node.meta
            (dinsert "refactor_rule" (MetaVal.str s.rule_id)
              (dinsert "refactored" (MetaVal.boolean true) (h.read node.meta)))
        else h) h).read r = h.read r := by
  induction ns with
  | nil => intro h r hr; rfl
  | cons n rest ih =>
    intro h r hr
    rw [List.foldl_cons]
    have hrest := ih (fun n' hn' => hfresh n' (List.mem_cons_of_mem _ hn'))
    by_cases hid : n.id ∈ s.affected_node_ids
    · rw [if_pos hid, hrest _ r hr]
      apply store_read_write_ne
      have hk := hfresh n (by simp)
      omega
    · rw [if_neg hid]
      exact hrest h r hr

theorem apply_suggestion_read_lt (g : HGraph) (s : RefactorSuggestion) (k : Nat)
    (hfresh : ∀ n ∈ g.nodes, k ≤ n.meta) (h : Store) (r : Nat) (hr : r < k) :
    (DiffSimulator.apply_suggestion h g s).read r = h.read r :=
  foldl_apply_read_lt s k g.nodes hfresh h r hr

theorem suggestions_read_lt (pg : HGraph) (k : Nat)
    (hfresh : ∀ n ∈ pg.nodes, k ≤ n.meta) (sugs : List RefactorSuggestion) :
    ∀ (h : Store) (r : Nat), r < k →
      (sugs.foldl (fun hh s => DiffSimulator.apply_suggestion hh pg s) h).read r
        = h.read r := by
  induction sugs with
  | nil => intro h r hr; rfl
  | cons s rest ih =>
    intro h r hr
    rw [List.foldl_cons, ih _ r hr, apply_suggestion_read_lt pg s k hfresh h r hr]

theorem countP_ext {α : Type} {p q : α → Bool} {l : List α}
    (h : ∀ x ∈ l, p x = q x) : l.countP p = l.countP q := by
  induction l with
  | nil => rfl
  | cons x rest ih =>
    rw [List.countP_cons, List.countP_cons, h x (by simp),
      ih (fun y hy => h y (List.mem_cons_of_mem _ hy))]

/-- Claim C5: `simulate` never mutates the input graph: every metadata cell
the store held before the call reads back unchanged afterwards — in
particular each input node's metadata mapping.  All suggestion annotations
land in the freshly allocated cells of the deep copy. -/
theorem simulate_does_not_mutate_input (compute_scores : Store → HGraph → Scores)
    (h : Store) (g : HGraph) (findings : List Finding) (plan : RefactorPlan) :
    (∀ r, r < h.cells.length →
      ((DiffSimulator.simulate compute_scores h g findings plan).1).read r
        = h.read r) ∧
    (∀ n ∈ g.nodes, n.meta < h.cells.length →
      ((DiffSimulator.simulate compute_scores h g findings plan).1).read n.meta
        = h.read n.meta) := by
  have hfresh : ∀ n ∈ (deepcopyGraph h g).2.nodes, h.cells.length ≤ n.meta :=
    deepcopyNodes_fresh g.nodes h
  have key : ∀ r, r < h.cells.length →
      ((DiffSimulator.simulate compute_scores h g findings plan).1).read r
        = h.read r := by
    intro r hr
    show (plan.suggestions.foldl
      (fun hh s => DiffSimulator.apply_suggestion hh (deepcopyGraph h g).2 s)
      (deepcopyGraph h g).1).read r = h.read r
    rw [suggestions_read_lt (deepcopyGraph h g).2 h.cells.length hfresh
      plan.suggestions _ r hr]
    rcases deepcopyNodes_cells g.nodes h with ⟨ext, he⟩
    show ((deepcopyNodes h g.nodes).1).cells.getD r [] = h.cells.getD r []
    rw [he]
    exact List.getD_append h.cells ext [] r hr
  exact ⟨key, fun n _ hm => key n.meta hm⟩

/-- Claim C6: the simulation result's projected node and edge counts equal
the input graph's counts, for every graph, findings list, plan, and scoring
collaborator. -/
theorem simulate_preserves_counts (compute_scores : Store → HGraph → Scores)
    (h : Store) (g : HGraph) (findings : List Finding) (plan : RefactorPlan) :
    ((DiffSimulator.simulate compute_scores h g findings plan).2).projected_node_count
      = g.nodes.length ∧
    ((DiffSimulator.simulate compute_scores h g findings plan).2).projected_edge_count
      = g.edges.length := by
  constructor
  · exact deepcopyNodes_len g.nodes h
  · rfl

/-- Claim C7: `findings_removed` counts exactly the findings whose rule_id
appears among the plan's suggestions' rule_ids, `findings_remaining` counts
the rest, and the remaining findings (the filter the code takes the length
of) form a sublist of the input, i.e. keep their original order; affected
node ids play no role. -/
theorem simulate_findings_by_rule_id (compute_scores : Store → HGraph → Scores)
    (h : Store) (g : HGraph) (findings : List Finding) (plan : RefactorPlan) :
    ((DiffSimulator.simulate compute_scores h g findings plan).2).findings_removed
      = findings.countP (fun f =>
          decide (f.rule_id ∈ plan.suggestions.map RefactorSuggestion.rule_id)) ∧
    ((DiffSimulator.simulate compute_scores h g findings plan).2).findings_remaining
      = findings.countP (fun f =>
          decide (f.rule_id ∉ plan.suggestions.map RefactorSuggestion.rule_id)) ∧
    List.Sublist
      (findings.filter (fun f =>
        decide (f.rule_id ∉ plan.suggestions.map RefactorSuggestion.rule_id)))
      findings := by
  have hcong : ∀ f ∈ findings,
      (decide ¬((fun f : Finding =>
        decide (f.rule_id ∈ plan.suggestions.map RefactorSuggestion.rule_id)) f = true) : Bool)
      = decide (f.rule_id ∉ plan.suggestions.map RefactorSuggestion.rule_id) := by
    intro f _
    simp
  refine ⟨?_, ?_, List.filter_sublist _⟩
  · show findings.length - (findings.filter (fun f =>
      decide (f.rule_id ∉ plan.suggestions.map RefactorSuggestion.rule_id))).length = _
    rw [← List.countP_eq_length_filter,
      List.length_eq_countP_add_countP (fun f : Finding =>
        decide (f.rule_id ∈ plan.suggestions.map RefactorSuggestion.rule_id)),
      countP_ext hcong]
    omega
  · show (findings.filter (fun f =>
      decide (f.rule_id ∉ plan.suggestions.map RefactorSuggestion.rule_id))).length = _
    rw [← List.countP_eq_length_filter]

end AtlasGraph
